import Mathlib

/-!
Verification of the Speech Playback Synchronization Engine of the `speeder`
repository, as described in `spec.md`, against a shallow embedding of the
TypeScript sources (`src/hooks/useTTS.ts`, the Azure hook packed inside
`src/hooks/useDocuments.ts`, `src/hooks/useKokoroTTS.ts` in both its
unfenced and generation-fenced variants, the facade `useTTSEngine`, and
`src/lib/rsvp.ts`).

Machine integers of the source are modelled as `Nat`/`Int`; millisecond
clocks and audio offsets (JS floating-point numbers in the source) are
modelled at `Nat` granularity, which is faithful for all order-theoretic
properties treated here.  Audio byte payloads are opaque to every claim and
are dropped from `ChunkResult`.  Asynchronous code is modelled as an
explicit state machine whose suspension points (awaiting a synthesis
response, awaiting a prefetch, an audio `ended` event) become resumption
events; a ghost session counter labels each continuation with the
`speak()` call that created it so that per-session statements can be made
even for the unfenced variant, which has no generation counter in the
source.
-/

namespace Speeder

/-- Per-word timing entry, from `interface WordTiming` in the Azure and
Kokoro hooks. -/
structure WordTiming where
  wordIndex : Nat
  audioOffsetMs : Nat
deriving DecidableEq

/-- Result of one synthesis call, from `interface ChunkResult` (the opaque
`audioBlob` bytes are irrelevant to every claim and omitted). -/
structure ChunkResult where
  startIndex : Nat
  chunkLen : Nat
  timings : List WordTiming
deriving DecidableEq

/-! ### Sentence detection (`src/lib/rsvp.ts`) -/

/-- Closing quotes/parens that the regex `[.!?]["'”’)]*$` allows
after the terminator. -/
def sentenceClosers : List Char := ['"', Char.ofNat 39, '”', '’', ')']

/-- Model of `isSentenceEnd` from `src/lib/rsvp.ts`: the word ends in
`.`, `!` or `?`, optionally followed by closing quotes/parentheses. -/
def isSentenceEnd (w : String) : Bool :=
  match w.toList.reverse.dropWhile (fun c => sentenceClosers.contains c) with
  | [] => false
  | c :: _ => c == '.' || c == '!' || c == '?'

/-! ### Buffered segmenter (`getChunkLength` in the Azure and Kokoro hooks) -/

def MIN_CHUNK_WORDS : Nat := 15
def MAX_CHUNK_WORDS : Nat := 80

/-- The scanning loop of `getChunkLength` (Azure/Kokoro hooks).  The loop
`for (let i = 0; i < bound; i++)` is translated with a fuel argument that
equals `bound - i`, so `fuel = 0` is loop exit.  `lastSE` is the mutable
`lastSentenceEnd` accumulator. -/
def scanChunk (words : List String) (f : Nat) : Nat → Nat → Nat → Nat
  | 0, _, lastSE =>
      if 0 < lastSE then lastSE else min (words.length - f) MAX_CHUNK_WORDS
  | fuel+1, i, lastSE =>
      if isSentenceEnd (words.getD (f + i) "") then
        if MIN_CHUNK_WORDS ≤ i + 1 then i + 1
        else scanChunk words f fuel (i+1) (i+1)
      else scanChunk words f fuel (i+1) lastSE

/-- Model of `getChunkLength(words, fromIndex)` shared verbatim by the
Azure hook and both Kokoro hook variants. -/
def getChunkLength (words : List String) (f : Nat) : Nat :=
  let remaining := words.length - f
  if remaining ≤ MIN_CHUNK_WORDS then remaining
  else scanChunk words f (min remaining MAX_CHUNK_WORDS) 0 0

theorem scanChunk_pos (words : List String) (f : Nat)
    (hmin : 1 ≤ min (words.length - f) MAX_CHUNK_WORDS) :
    ∀ fuel i lastSE, 1 ≤ scanChunk words f fuel i lastSE := by
  intro fuel
  induction fuel with
  | zero =>
      intro i lastSE
      simp only [scanChunk]
      split
      · omega
      · exact hmin
  | succ n ih =>
      intro i lastSE
      simp only [scanChunk]
      split
      · split
        · omega
        · exact ih (i+1) (i+1)
      · exact ih (i+1) lastSE

theorem scanChunk_le (words : List String) (f : Nat) :
    ∀ fuel i lastSE, lastSE ≤ i →
      i + fuel ≤ min (words.length - f) MAX_CHUNK_WORDS →
      scanChunk words f fuel i lastSE ≤ min (words.length - f) MAX_CHUNK_WORDS := by
  intro fuel
  induction fuel with
  | zero =>
      intro i lastSE hse hbound
      simp only [scanChunk]
      split
      · omega
      · omega
  | succ n ih =>
      intro i lastSE hse hbound
      simp only [scanChunk]
      split
      · split
        · omega
        · exact ih (i+1) (i+1) (le_refl _) (by omega)
      · exact ih (i+1) lastSE (by omega) (by omega)

/-- The segmenter never returns 0 while words remain. -/
theorem getChunkLength_pos (words : List String) (f : Nat) (h : f < words.length) :
    1 ≤ getChunkLength words f := by
  unfold getChunkLength
  simp only
  split
  · omega
  · exact scanChunk_pos words f (by unfold MIN_CHUNK_WORDS MAX_CHUNK_WORDS at *; omega) _ 0 0

/-- The segmenter never overshoots the remaining suffix. -/
theorem getChunkLength_le (words : List String) (f : Nat) :
    getChunkLength words f ≤ words.length - f := by
  unfold getChunkLength
  simp only
  split
  · omega
  · have := scanChunk_le words f (min (words.length - f) MAX_CHUNK_WORDS) 0 0
      (le_refl 0) (by omega)
    omega

/-- Repeatedly applying the segmenter from index `i`: the `(start, length)`
chunk descriptors produced until the word list is exhausted.  Totality of
this definition is the termination half of claim C4. -/
def chunks (words : List String) (i : Nat) : List (Nat × Nat) :=
  if h : i < words.length then
    (i, getChunkLength words i) :: chunks words (i + getChunkLength words i)
  else []
termination_by words.length - i
decreasing_by
  have h1 := getChunkLength_pos words i h
  omega

theorem range'_add_eq (i a b : Nat) :
    List.range' i (a + b) = List.range' i a ++ List.range' (i + a) b := by
  induction a generalizing i with
  | zero => simp
  | succ n ih =>
      rw [Nat.succ_add, List.range'_succ, List.range'_succ, ih (i+1)]
      have h1 : i + 1 + n = i + (n + 1) := by omega
      simp [List.cons_append, h1]

theorem chunks_spec (words : List String) :
    ∀ n i, words.length - i ≤ n →
      (∀ p ∈ chunks words i, 1 ≤ p.2) ∧
      ((chunks words i).map Prod.snd).sum = words.length - i ∧
      (chunks words i).flatMap (fun p => List.range' p.1 p.2) =
        List.range' i (words.length - i) := by
  intro n
  induction n with
  | zero =>
      intro i hi
      rw [chunks]
      have : ¬ i < words.length := by omega
      simp [this]
      omega
  | succ n ih =>
      intro i hi
      rw [chunks]
      by_cases h : i < words.length
      · simp only [h, dite_true]
        have hpos := getChunkLength_pos words i h
        have hle := getChunkLength_le words i
        obtain ⟨ih1, ih2, ih3⟩ := ih (i + getChunkLength words i) (by omega)
        refine ⟨?_, ?_, ?_⟩
        · intro p hp
          rcases List.mem_cons.mp hp with h1 | h1
          · subst h1; exact hpos
          · exact ih1 p h1
        · simp only [List.map_cons, List.sum_cons, ih2]
          omega
        · simp only [List.flatMap_cons, ih3]
          have : words.length - i =
              getChunkLength words i + (words.length - (i + getChunkLength words i)) := by
            omega
          rw [this, range'_add_eq]
      · simp [h]
        omega

/-- C4: for every word list `W` and every start index `i`, repeatedly
applying the buffered segmenter `getChunkLength` from `i` terminates (the
model `chunks` is a total function) and partitions the index range
`[i, len W - 1]` into consecutive, non-overlapping chunks: each produced
length is at least 1, the lengths sum to `len W - i`, and concatenating
the chunk index-ranges in order yields exactly the range `[i, len W)`. -/
theorem segmenter_partitions (words : List String) (i : Nat) :
    (∀ p ∈ chunks words i, 1 ≤ p.2) ∧
    ((chunks words i).map Prod.snd).sum = words.length - i ∧
    (chunks words i).flatMap (fun p => List.range' p.1 p.2) =
      List.range' i (words.length - i) :=
  chunks_spec words (words.length - i) i (le_refl _)

/-! ### Streaming (browser) chunker (`getChunkLength` in `useTTS.ts`) -/

def CHUNK_SIZE : Nat := 40

/-- The backward scan `for (let i = fromIndex + CHUNK_SIZE - 1;
i >= fromIndex + CHUNK_SIZE - 15; i--)` of the browser hook, counting the
remaining iterations: countdown `c` corresponds to index
`fromIndex + CHUNK_SIZE - 15 + c - 1`. -/
def browserScan (words : List String) (f : Nat) : Nat → Nat
  | 0 => min CHUNK_SIZE (words.length - f)
  | c+1 =>
      let i := f + (CHUNK_SIZE - 15) + c
      if i < words.length ∧ isSentenceEnd (words.getD i "") then i - f + 1
      else browserScan words f c

/-- Model of `getChunkLength(words, fromIndex)` from `useTTS.ts`, the
streaming/browser provider. -/
def browserChunkLength (words : List String) (f : Nat) : Nat :=
  let remaining := words.length - f
  if remaining ≤ CHUNK_SIZE then remaining
  else browserScan words f 15

/-! ### Position tracker (`syncLoop` inside `playChunk`, Azure and Kokoro
hooks; the same backward scan appears in both) -/

/-- The backward scan of `syncLoop`:
`for (let i = timings.length - 1; i >= 0; i--) if (timings[i].audioOffsetMs <= t) { matchIdx = i; break }`,
i.e. the last entry whose offset is at most the polled clock. -/
def findMatch (timings : List WordTiming) (clock : Nat) : Option WordTiming :=
  timings.reverse.find? (fun t => t.audioOffsetMs ≤ clock)

/-- One iteration of `syncLoop`: given the timing table, the polled clock
and `lastReportedRef`, returns the updated `lastReportedRef` and the word
boundary emitted (if any). -/
def syncStep (timings : List WordTiming) (clock : Nat) (lastReported : Int) :
    Int × Option Nat :=
  match findMatch timings clock with
  | none => (lastReported, none)
  | some t =>
      if (t.wordIndex : Int) ≠ lastReported then (t.wordIndex, some t.wordIndex)
      else (lastReported, none)

theorem findMatch_eq_filter_getLast (timings : List WordTiming) (clock : Nat) :
    findMatch timings clock =
      (timings.filter (fun t => t.audioOffsetMs ≤ clock)).getLast? := by
  induction timings using List.reverseRecOn with
  | nil => rfl
  | append_singleton l a ih =>
      unfold findMatch at *
      rw [List.reverse_append, List.filter_append]
      simp only [List.reverse_cons, List.reverse_nil, List.nil_append,
        List.singleton_append]
      by_cases h : a.audioOffsetMs ≤ clock
      · rw [List.find?_cons_of_pos _ (by simpa using h)]
        have h2 : List.filter (fun t => decide (t.audioOffsetMs ≤ clock)) [a] = [a] := by
          simp [h]
        rw [h2, List.getLast?_concat]
      · rw [List.find?_cons_of_neg _ (by simpa using h)]
        have h2 : List.filter (fun t => decide (t.audioOffsetMs ≤ clock)) [a] = [] := by
          simp [h]
        rw [h2, List.append_nil, ih]

/-! ### Timing-table construction (`synthesizeChunk` in both hooks) -/

/-- The Kokoro timing loop: `for (let i = 0; i < min(|timestamps|, chunkLen); i++)
timings.push({wordIndex: startIndex + i, audioOffsetMs: timestamps[i].start * 1000})`.
`ts` is the list of server `start` values (seconds, modelled at `Nat`
granularity). -/
def kokoroTimings (startIndex chunkLen : Nat) (ts : List Nat) : List WordTiming :=
  (List.range (min ts.length chunkLen)).map
    (fun i => ⟨startIndex + i, ts.getD i 0 * 1000⟩)

/-- A word-boundary event from the Azure speech SDK: `e.textOffset`
(character offset into the submitted SSML) and `e.audioOffset`
(ticks of 100 ns, converted to ms by `/ 10000`). -/
structure BoundaryEvent where
  textOffset : Nat
  audioOffset : Nat
deriving DecidableEq

/-- The descending scan `for (let i = wordOffsets.length - 1; i >= 0; i--)
if (wordOffsets[i] <= offsetInText) { wordIdx = i; break }` with default 0
(`n` is the number of entries still to inspect). -/
def locGo (offsets : List Nat) (x : Nat) : Nat → Nat
  | 0 => 0
  | n+1 => if offsets.getD n 0 ≤ x then n else locGo offsets x n

/-- Locate the greatest recorded word-start offset at most `x`
(the `wordIdx` computation of the Azure `wordBoundary` handler). -/
def locateWord (offsets : List Nat) (x : Nat) : Nat :=
  locGo offsets x offsets.length

/-- One Azure `synth.wordBoundary` callback: skip events landing inside the
SSML prefix, locate the word, and push a timing entry unless the word index
repeats `lastRecordedWord` (the `Int` state, initially `-1`). -/
def azureStep (startIndex prefixLen : Nat) (offsets : List Nat)
    (st : Int × List WordTiming) (e : BoundaryEvent) : Int × List WordTiming :=
  if e.textOffset < prefixLen then st
  else
    let wordIdx := locateWord offsets (e.textOffset - prefixLen)
    if (wordIdx : Int) ≠ st.1 then
      (wordIdx, st.2 ++ [⟨startIndex + wordIdx, e.audioOffset / 10000⟩])
    else st

/-- The timing table accumulated by the Azure `wordBoundary` handler over a
sequence of boundary events (`lastRecordedWord` starts at `-1`). -/
def azureTimings (startIndex prefixLen : Nat) (offsets : List Nat)
    (events : List BoundaryEvent) : List WordTiming :=
  (events.foldl (azureStep startIndex prefixLen offsets) (-1, [])).2

/-! ### Provider configurations (`src/lib/tts-providers.ts`) and the
`ready` flags / `speak` guards of the hooks -/

structure AzureConfig where
  subscriptionKey : String
  region : String
  voiceName : String
deriving DecidableEq

structure KokoroConfig where
  serverUrl : String
  voiceName : String
deriving DecidableEq

/-- The truthiness test `!!config?.serverUrl` (Kokoro `ready`), which is
also the negation of the guard `if (!config?.serverUrl) return` at the top
of Kokoro `speak`/`playFromIndex`/`synthesizeChunk`. -/
def kokoroReady : Option KokoroConfig → Bool
  | none => false
  | some c => !(c.serverUrl == "")

/-- The truthiness test `!!config?.subscriptionKey && !!config?.region`
(Azure `ready`), negation of the guard
`if (!config?.subscriptionKey || !config?.region) return`. -/
def azureReady : Option AzureConfig → Bool
  | none => false
  | some c => !(c.subscriptionKey == "") && !(c.region == "")

/-! ### Adapter synthesis boundary (`synthesizeChunk` in both hooks):
everything the backend can do is reduced to `Option ChunkResult` -/

/-- Outcome of the Kokoro `fetch` call as observed by `synthesizeChunk`:
either the transport throws (network failure, bad base64, JSON parse
error — all landing in the `catch`), or a response arrives with an HTTP
ok-flag, an optional `audio` field (base64 string, possibly empty and
hence falsy), and a `timestamps` array of `start` values. -/
inductive KokoroOutcome where
  | failure
  | response (ok : Bool) (audio : Option String) (timestamps : List Nat)

/-- Model of Kokoro `synthesizeChunk(startIndex)`: config guard, range
guard, then `if (!res.ok) return null; if (!data.audio) return null;`
and the timing loop; the `catch` clause maps any thrown error to `null`. -/
def synthesizeChunkK (cfg : Option KokoroConfig) (words : List String)
    (startIndex : Nat) (out : KokoroOutcome) : Option ChunkResult :=
  if ¬ kokoroReady cfg then none
  else if words.length ≤ startIndex then none
  else
    let chunkLen := getChunkLength words startIndex
    match out with
    | .failure => none
    | .response ok audio ts =>
        if ¬ ok then none
        else match audio with
          | none => none
          | some au =>
              if au == "" then none
              else some ⟨startIndex, chunkLen, kokoroTimings startIndex chunkLen ts⟩

/-- Outcome of an Azure `speakSsmlAsync` call as observed by
`synthesizeChunk`: either the error callback fired, or the result callback
fired with a reason flag (`SynthesizingAudioCompleted` or not), the byte
length of `result.audioData`, and the word-boundary events delivered
before completion. -/
inductive AzureOutcome where
  | errorCallback
  | result (completed : Bool) (audioByteLength : Nat) (events : List BoundaryEvent)

/-- Model of Azure `synthesizeChunk(startIndex, voiceName)`: config guard,
range guard, then resolve with a `ChunkResult` only when the reason is
`SynthesizingAudioCompleted` and `audioData` is non-empty; every other
path resolves `null`.  The SSML prefix length and escaped word-start
offset table are passed in as parameters (their construction is string
plumbing that no claim inspects). -/
def synthesizeChunkA (cfg : Option AzureConfig) (words : List String)
    (startIndex prefixLen : Nat) (offsets : List Nat) (out : AzureOutcome) :
    Option ChunkResult :=
  if ¬ azureReady cfg then none
  else if words.length ≤ startIndex then none
  else
    let chunkLen := getChunkLength words startIndex
    match out with
    | .errorCallback => none
    | .result completed audioByteLength events =>
        if completed ∧ 0 < audioByteLength then
          some ⟨startIndex, chunkLen, azureTimings startIndex prefixLen offsets events⟩
        else none

/-! ### The buffered playback scheduler as a state machine

This models `speak` / `stop` / `playFromIndex` / `playChunk` /
the `synthesizeChunk` resolution and the `audio.onended` handler of the
Kokoro hook, in both its variants (`fenced = true` adds the
`generationRef` checkpoints present in `useKokoroTTS` lines 501-579 and in
the Azure hook; `fenced = false` is the unfenced variant at lines
205-266).  Each `await` becomes a continuation stored in the state and an
environment event resumes it.  Ghost fields (`session` labels, the `live`
list of created-and-not-yet-released audio elements, the `reports` log)
track observable behaviour without influencing any branch the source
takes. -/

/-- A suspended continuation of the scheduler.
* `awaitSynth`: `playFromIndex` suspended at `await synthesizeChunk(start)`
  (the chunk length was computed from the words captured at call time);
* `playing`: `playChunk` registered `onended` for audio `aid`; `pf` is the
  id of the prefetch promise started alongside, if any;
* `awaitPrefetch`: the `onFinished` callback suspended at
  `await prefetchPromise`.
`sess` is the ghost session label; `gen` is the captured
`generationRef.current` (meaningful only in the fenced variant). -/
inductive Cont where
  | awaitSynth (sess gen start chunkLen : Nat)
  | playing (sess gen : Nat) (aid : Nat) (chunk : ChunkResult) (pf : Option Nat)
  | awaitPrefetch (sess gen : Nat) (nextStart : Nat) (pf : Nat)
deriving DecidableEq

/-- An outstanding prefetch promise (`prefetchPromise`): resolved is `none`
while in flight, `some r` once the environment delivered `r`. -/
structure PrefetchSlot where
  id : Nat
  start : Nat
  chunkLen : Nat
  resolved : Option (Option ChunkResult)
deriving DecidableEq

structure EngineState where
  /-- ghost: number of `speak()` calls so far; labels the current session -/
  session : Nat
  /-- the mutable `generationRef.current` (present only in the fenced variants) -/
  generation : Nat
  /-- the mutable `stoppedRef.current` -/
  stopped : Bool
  /-- the React `speaking` flag -/
  speaking : Bool
  /-- the mutable `allWordsRef.current` -/
  words : List String
  /-- the mutable `audioRef.current` (id of the audio element it points to) -/
  audio : Option Nat
  /-- ghost: ids of audio elements created by `playChunk` and neither
  paused (by `cleanup`) nor ended — the concurrently audible outputs -/
  live : List Nat
  /-- the mutable `prefetchedRef.current` -/
  prefetched : Option ChunkResult
  conts : List Cont
  prefs : List PrefetchSlot
  /-- ghost: log of `onWordBoundary` callbacks as (session label, index) -/
  reports : List (Nat × Nat)
  /-- ghost: log of `onEnd` callbacks by session label -/
  ends : List Nat
  /-- the mutable `lastReportedRef.current` -/
  lastReported : Int
  nextAudio : Nat
  nextPref : Nat
deriving DecidableEq

/-- The initial state of a freshly mounted hook. -/
def initState : EngineState :=
  { session := 0, generation := 0, stopped := false, speaking := false,
    words := [], audio := none, live := [], prefetched := none,
    conts := [], prefs := [], reports := [], ends := [],
    lastReported := -1, nextAudio := 0, nextPref := 0 }

/-- Model of `cleanup()`: cancel the poll loop, abort the in-flight controller,
pause and discard `audioRef.current`, reset `lastReportedRef` and drop the
prefetched chunk.  Pausing removes the audio from the ghost `live` list;
audio elements not referenced by `audioRef` are NOT paused. -/
def cleanup (st : EngineState) : EngineState :=
  { st with
    audio := none
    live := match st.audio with
            | some a => st.live.erase a
            | none => st.live
    lastReported := -1
    prefetched := none }

/-- Model of `playChunk(chunk, ...)`: create a new audio element for the chunk,
overwrite `audioRef.current` with it (the previous element, if any, is not
paused here) and start playback, registering `onended`. -/
def playChunk (st : EngineState) (sess gen : Nat) (chunk : ChunkResult)
    (pf : Option Nat) : EngineState :=
  { st with
    audio := some st.nextAudio
    live := st.live ++ [st.nextAudio]
    conts := st.conts ++ [.playing sess gen st.nextAudio chunk pf]
    nextAudio := st.nextAudio + 1 }

/-- The code of `playFromIndex` following a successful chunk acquisition:
compute `nextStartIndex`, start the prefetch when more words remain, and
play the chunk. -/
def gotChunk (st : EngineState) (sess gen : Nat) (chunk : ChunkResult) :
    EngineState :=
  let nextStart := chunk.startIndex + chunk.chunkLen
  if nextStart < st.words.length then
    playChunk
      { st with
        prefs := st.prefs ++ [⟨st.nextPref, nextStart, getChunkLength st.words nextStart, none⟩]
        nextPref := st.nextPref + 1 }
      sess gen chunk (some st.nextPref)
  else
    playChunk st sess gen chunk none

/-- The synchronous prefix of `playFromIndex(startIndex)` up to its first
`await`: end-of-words / stopped check (which fires `onEnd`), prefetched
chunk consumption, or suspension at `await synthesizeChunk`. -/
def playFromIndex (st : EngineState) (sess : Nat) (start : Nat) : EngineState :=
  if st.words.length ≤ start ∨ st.stopped then
    { st with speaking := false, ends := st.ends ++ [sess] }
  else
    let g := st.generation
    match st.prefetched with
    | some c =>
        if c.startIndex = start then
          gotChunk { st with prefetched := none } sess g c
        else
          { st with prefetched := none,
                    conts := st.conts ++ [.awaitSynth sess g start (getChunkLength st.words start)] }
    | none =>
        { st with conts := st.conts ++ [.awaitSynth sess g start (getChunkLength st.words start)] }

/-- The body of `speak(words, fromIndex)` after its config guard:
`cleanup`, generation bump (fenced variant only), reset `stopped`, store
the words, set `speaking`, and run `playFromIndex`. -/
def speakBody (fenced : Bool) (st : EngineState) (ws : List String)
    (fromIndex : Nat) : EngineState :=
  let st1 := cleanup st
  let st2 :=
    { st1 with
      session := st1.session + 1
      generation := if fenced then st1.generation + 1 else st1.generation
      stopped := false
      words := ws
      speaking := true }
  playFromIndex st2 st2.session fromIndex

/-- Model of `speak` of the Kokoro hook (`if (!config?.serverUrl) return` guard). -/
def speakOp (fenced : Bool) (cfg : Option KokoroConfig) (st : EngineState)
    (ws : List String) (fromIndex : Nat) : EngineState :=
  if ¬ kokoroReady cfg then st
  else speakBody fenced st ws fromIndex

/-- Model of `speak` of the Azure hook
(`if (!config?.subscriptionKey || !config?.region) return` guard; the
Azure scheduler is generation-fenced). -/
def speakOpAzure (cfg : Option AzureConfig) (st : EngineState)
    (ws : List String) (fromIndex : Nat) : EngineState :=
  if ¬ azureReady cfg then st
  else speakBody true st ws fromIndex

/-- Model of `stop()`: set `stopped`, `cleanup()`, report not speaking. -/
def stopOp (st : EngineState) : EngineState :=
  let st1 := cleanup { st with stopped := true }
  { st1 with speaking := false }

/-- Resumption of `playFromIndex` after `await synthesizeChunk` resolves
with `r`: the checkpoint `if (!chunk || stoppedRef.current || ...)`
(the fenced variant additionally compares the captured generation), then
`gotChunk`. -/
def resolveSynth (fenced : Bool) (st : EngineState) (sess gen : Nat)
    (r : Option ChunkResult) : EngineState :=
  match r with
  | none =>
      if fenced then
        if gen = st.generation then { st with speaking := false } else st
      else { st with speaking := false }
  | some chunk =>
      if st.stopped ∨ (fenced ∧ gen ≠ st.generation) then
        if fenced then
          if gen = st.generation then { st with speaking := false } else st
        else { st with speaking := false }
      else gotChunk st sess gen chunk

/-- The `audio.onended` handler of `playChunk` followed by the `onFinished`
callback of `playFromIndex`: report the final timing entry if it was not
yet reported, release the audio, then — unless stopped (or, fenced, the
generation moved on) — either suspend on the pending prefetch or recurse
into `playFromIndex` directly. -/
def audioEnded (fenced : Bool) (st : EngineState) (sess gen aid : Nat)
    (chunk : ChunkResult) (pf : Option Nat) : EngineState :=
  let st1 :=
    match chunk.timings.getLast? with
    | some last =>
        if (last.wordIndex : Int) ≠ st.lastReported then
          { st with reports := st.reports ++ [(sess, last.wordIndex)],
                    lastReported := (last.wordIndex : Int) }
        else st
    | none => st
  let st2 := { st1 with audio := none, live := st1.live.erase aid }
  if st2.stopped ∨ (fenced ∧ gen ≠ st2.generation) then st2
  else
    match pf with
    | none => playFromIndex st2 sess (chunk.startIndex + chunk.chunkLen)
    | some p =>
        { st2 with conts := st2.conts ++ [.awaitPrefetch sess gen (chunk.startIndex + chunk.chunkLen) p] }

/-- Resumption of `onFinished` after `await prefetchPromise` resolves with
`r`: store the prefetched chunk when still wanted, then (fenced: unless the
generation moved on) recurse into `playFromIndex`. -/
def resolvePrefetchWait (fenced : Bool) (st : EngineState) (sess gen nextStart : Nat)
    (r : Option ChunkResult) : EngineState :=
  let st1 :=
    if ¬ st.stopped ∧ (fenced → gen = st.generation) ∧ r.isSome then
      { st with prefetched := r }
    else st
  if fenced ∧ gen ≠ st1.generation then st1
  else playFromIndex st1 sess nextStart

/-- Scheduler events: the two user operations plus the environment
resumptions of the three suspension kinds.  A synthesis or prefetch
response carries `some ts` (the server timestamp list, from which the
adapter builds the chunk exactly as `synthesizeChunk` does) or `none`
(any of the null paths of `synthesizeChunk`). -/
inductive Ev where
  | speak (ws : List String) (i : Nat)
  | stop
  | synthDone (sess : Nat) (r : Option (List Nat))
  | audioEnd (aid : Nat)
  | prefetchDone (pid : Nat) (r : Option (List Nat))
  | prefetchTake (sess : Nat)

def isAwaitSynth (sess : Nat) : Cont → Bool
  | .awaitSynth s _ _ _ => s == sess
  | _ => false

def isPlaying (aid : Nat) : Cont → Bool
  | .playing _ _ a _ _ => a == aid
  | _ => false

def isAwaitPrefetch (sess : Nat) : Cont → Bool
  | .awaitPrefetch s _ _ _ => s == sess
  | _ => false

/-- One step of the scheduler.  User events run the corresponding hook
function; an environment event resumes the matching continuation (and is a
no-op if none is waiting — e.g. an `ended` event of an already-paused
audio element never fires, hence the `aid ∈ live` guard). -/
def step (fenced : Bool) (cfg : Option KokoroConfig) (st : EngineState) :
    Ev → EngineState
  | .speak ws i => speakOp fenced cfg st ws i
  | .stop => stopOp st
  | .synthDone sess r =>
      match st.conts.find? (isAwaitSynth sess) with
      | some (.awaitSynth s g start clen) =>
          resolveSynth fenced { st with conts := st.conts.eraseP (isAwaitSynth sess) }
            s g (r.map fun ts => ⟨start, clen, kokoroTimings start clen ts⟩)
      | _ => st
  | .audioEnd aid =>
      if aid ∈ st.live then
        match st.conts.find? (isPlaying aid) with
        | some (.playing sess g a chunk pf) =>
            audioEnded fenced { st with conts := st.conts.eraseP (isPlaying aid) }
              sess g a chunk pf
        | _ => st
      else st
  | .prefetchDone pid r =>
      { st with
        prefs := st.prefs.map fun q =>
          if q.id == pid ∧ q.resolved = none then
            { q with resolved := some (r.map fun ts => ⟨q.start, q.chunkLen, kokoroTimings q.start q.chunkLen ts⟩) }
          else q }
  | .prefetchTake sess =>
      match st.conts.find? (isAwaitPrefetch sess) with
      | some (.awaitPrefetch s g next p) =>
          match st.prefs.find? (fun q => q.id == p) with
          | some q =>
              match q.resolved with
              | some r =>
                  resolvePrefetchWait fenced
                    { st with conts := st.conts.eraseP (isAwaitPrefetch sess),
                              prefs := st.prefs.eraseP (fun q2 => q2.id == p) }
                    s g next r
              | none => st
          | none => st
      | _ => st

/-- Run the scheduler over a sequence of events. -/
def run (fenced : Bool) (cfg : Option KokoroConfig) (st : EngineState)
    (evs : List Ev) : EngineState :=
  evs.foldl (step fenced cfg) st

/-! ### The engine facade (`useTTSEngine`, `src/unnamed/part_009`) -/

inductive ProviderTag where
  | browser
  | azure
  | kokoro
deriving DecidableEq

/-- A call the facade issues to one of its provider adapters. -/
inductive FacadeCall where
  | speakCall (p : ProviderTag) (fromIndex : Nat)
  | stopCall (p : ProviderTag)
deriving DecidableEq

/-- State of `useTTSEngine`: the position-tracking refs
(`lastWordsRef`, `lastWordIndexRef`), the active provider, the facade's
view of `speaking`, the pending settle-delay timer of `restartIfSpeaking`,
and a ghost log of the adapter calls issued. -/
structure FacadeState where
  activeProvider : ProviderTag
  lastWords : List String
  lastWordIndex : Nat
  speaking : Bool
  pendingRestart : Bool
  calls : List FacadeCall
deriving DecidableEq

/-- Model of facade `speak(words, fromIndex)`: record position refs and
delegate to the active adapter (assumed ready, so it reports speaking). -/
def facadeSpeak (st : FacadeState) (ws : List String) (i : Nat) : FacadeState :=
  { st with lastWords := ws, lastWordIndex := i, speaking := true,
            calls := st.calls ++ [.speakCall st.activeProvider i] }

/-- Model of `trackingWordBoundary(wordIndex)`: update `lastWordIndexRef` before
forwarding the boundary to the caller. -/
def facadeBoundary (st : FacadeState) (w : Nat) : FacadeState :=
  { st with lastWordIndex := w }

/-- Model of facade `stop()`. -/
def facadeStop (st : FacadeState) : FacadeState :=
  { st with speaking := false, calls := st.calls ++ [.stopCall st.activeProvider] }

/-- Model of `restartIfSpeaking()`: if speaking (or a restart is already pending)
and words were captured, stop the active adapter and arm the 300 ms settle
timer. -/
def restartIfSpeaking (st : FacadeState) : FacadeState :=
  if (st.speaking ∨ st.pendingRestart) ∧ st.lastWords ≠ [] then
    { st with speaking := false, pendingRestart := true,
              calls := st.calls ++ [.stopCall st.activeProvider] }
  else st

/-- The settle timer firing: re-`speak` the captured words from
`lastWordIndexRef.current` on the active adapter. -/
def settleTimerFire (st : FacadeState) : FacadeState :=
  if st.pendingRestart then
    { st with pendingRestart := false, speaking := true,
              calls := st.calls ++ [.speakCall st.activeProvider st.lastWordIndex] }
  else st

/-- Model of `setRate(rateOrUpdater)`: forward to the adapter (rate value not
modelled) then `restartIfSpeaking()`. -/
def facadeSetRate (st : FacadeState) : FacadeState :=
  restartIfSpeaking st

/-- The voice-change effect: when the active provider's voice changed
while speaking, stop and immediately re-`speak` from
`lastWordIndexRef.current` (no settle timer on this path). -/
def voiceChangeRestart (st : FacadeState) : FacadeState :=
  if st.speaking ∧ st.lastWords ≠ [] then
    { st with
      calls := st.calls ++ [.stopCall st.activeProvider,
                            .speakCall st.activeProvider st.lastWordIndex] }
  else st

/-- Model of `updateProvider(newProvider, ...)`: stop the active adapter when
speaking, then select the new provider (configs persisted, not modelled).
The source issues no `speak` on this path. -/
def updateProvider (st : FacadeState) (newP : ProviderTag) : FacadeState :=
  if st.speaking then
    { st with speaking := false, activeProvider := newP,
              calls := st.calls ++ [.stopCall st.activeProvider] }
  else { st with activeProvider := newP }

/-! ### Concrete scenario material -/

/-- Three plain words: one chunk (`remaining = 3 ≤ MIN_CHUNK_WORDS`). -/
def demoWords : List String := ["one", "two", "three"]

def demoCfg : Option KokoroConfig := some ⟨"http://localhost:8880", "af_heart"⟩

/-- The interleaving refuting the one-active-audio invariant on the
unfenced Kokoro variant: two `speak` calls queue two synthesis awaits;
both responses then arrive and each passes the `!chunk || stopped`
checkpoint (the second `speak` reset `stopped` and there is no generation
fence), so each creates and plays an audio element. -/
def c1Trace : List Ev :=
  [.speak demoWords 0, .speak demoWords 0,
   .synthDone 1 (some [0]), .synthDone 2 (some [0])]

/-- The prefix of the interleaving refuting C2 on the unfenced Kokoro
variant: session 2's synthesis resolves first (its audio, id 0, plays),
then session 1's stale synthesis resolves and — unfenced — also plays
(audio id 1, which takes over `audioRef`), then `stop()` pauses only
`audioRef.current` (audio 1), leaving the stopped session's audio 0
playing. -/
def c2Trace : List Ev :=
  [.speak demoWords 0, .speak demoWords 0,
   .synthDone 2 (some [0]), .synthDone 1 (some [0]), .stop]

end Speeder

namespace Speeder

/-- C1: the claim fails on the unfenced Kokoro variant
(`useKokoroTTS.ts` `playFromIndex`/`speak`, lines 205-266): after a second
`speak()` issued while the first session's synthesis is still pending,
resolving both pending syntheses leaves TWO created-and-playing audio
elements (ids 0 and 1) — the superseded session's continuation is not
abandoned because `speak()` reset `stopped` to `false` and the unfenced
variant has no generation checkpoint, and `playChunk` overwrites
`audioRef` without pausing the previous element.  The fenced variants
(Azure hook, `useKokoroTTS.ts` lines 501-579) block this same interleaving
at the `gen !== generationRef.current` checkpoint. -/
theorem unfenced_two_live_audios :
    (run false demoCfg initState c1Trace).live = [0, 1] ∧
    (run false demoCfg initState c1Trace).live.length = 2 := by
  decide

/-- C2: the claim fails on the unfenced Kokoro variant: in the state
reached by `c2Trace` the engine is stopped (`stop()` has returned, current
session is 2, no `wordBoundary` was ever emitted), yet the stopped
session's audio element (id 0) is still playing, and its subsequent
`ended` event emits a `wordBoundary` callback labelled with the stopped
session. -/
theorem unfenced_boundary_after_stop :
    (run false demoCfg initState c2Trace).stopped = true ∧
    (run false demoCfg initState c2Trace).session = 2 ∧
    (run false demoCfg initState c2Trace).reports = [] ∧
    0 ∈ (run false demoCfg initState c2Trace).live ∧
    (step false demoCfg (run false demoCfg initState c2Trace) (.audioEnd 0)).reports
      = [(2, 0)] := by
  decide

theorem gotChunk_generation (st : EngineState) (s g : Nat) (c : ChunkResult) :
    (gotChunk st s g c).generation = st.generation := by
  by_cases h : c.startIndex + c.chunkLen < st.words.length <;>
    simp [gotChunk, playChunk, h]

theorem playFromIndex_generation (st : EngineState) (s i : Nat) :
    (playFromIndex st s i).generation = st.generation := by
  unfold playFromIndex
  split
  · rfl
  · split
    · split
      · rw [gotChunk_generation]
      · rfl
    · rfl

theorem playFromIndex_stopped (st : EngineState) (h : st.stopped = true) (s i : Nat) :
    playFromIndex st s i = { st with speaking := false, ends := st.ends ++ [s] } := by
  unfold playFromIndex
  simp [h]

/-- C3 counterexample: on the fenced variants, `stop()` does NOT increment
the generation counter.  After `speak` then `stop`, the invalidated
session's continuation still carries captured generation 1 and the
engine's generation is still 1 — not strictly greater, contrary to the
claim.  (`stop` only sets `stopped` and cleans up; only `speak`
increments `generationRef`.) -/
theorem stop_leaves_generation_equal :
    (run true demoCfg initState [.speak demoWords 0, .stop]).stopped = true ∧
    (run true demoCfg initState [.speak demoWords 0, .stop]).conts
      = [.awaitSynth 1 1 0 3] ∧
    (run true demoCfg initState [.speak demoWords 0, .stop]).generation = 1 ∧
    ¬ 1 < (run true demoCfg initState [.speak demoWords 0, .stop]).generation := by
  decide

/-- C3 as amended: `stop()` sets `stopped`, releases the audio resource
and reports not speaking, but leaves `generation` unchanged; it is
`speak()` alone that increments `generation`.  In-flight async
completions arriving after `stop()` still become no-ops — through the
`stopped` checkpoint, not a generation mismatch: a synthesis or prefetch
resolution in a stopped state creates no audio, emits no word boundary,
and stores no prefetched chunk. -/
theorem stop_invalidates_via_stopped_flag :
    (∀ st : EngineState,
      (stopOp st).stopped = true ∧ (stopOp st).generation = st.generation ∧
      (stopOp st).audio = none ∧ (stopOp st).speaking = false) ∧
    (∀ (st : EngineState) (ws : List String) (i : Nat),
      (speakBody true st ws i).generation = st.generation + 1) ∧
    (∀ (fenced : Bool) (st : EngineState) (sess gen : Nat) (r : Option ChunkResult),
      st.stopped = true →
        (resolveSynth fenced st sess gen r).live = st.live ∧
        (resolveSynth fenced st sess gen r).reports = st.reports ∧
        (resolveSynth fenced st sess gen r).audio = st.audio ∧
        (resolveSynth fenced st sess gen r).prefetched = st.prefetched) ∧
    (∀ (fenced : Bool) (st : EngineState) (sess gen nextStart : Nat)
        (r : Option ChunkResult),
      st.stopped = true →
        (resolvePrefetchWait fenced st sess gen nextStart r).live = st.live ∧
        (resolvePrefetchWait fenced st sess gen nextStart r).reports = st.reports ∧
        (resolvePrefetchWait fenced st sess gen nextStart r).audio = st.audio ∧
        (resolvePrefetchWait fenced st sess gen nextStart r).prefetched = st.prefetched) := by
  refine ⟨?_, ?_, ?_, ?_⟩
  · intro st
    simp [stopOp, cleanup]
  · intro st ws i
    simp [speakBody, playFromIndex_generation, cleanup]
  · intro fenced st sess gen r h
    cases r with
    | none =>
        unfold resolveSynth
        by_cases hf : fenced = true <;> by_cases hg : gen = st.generation <;>
          simp [hf, hg]
    | some c =>
        unfold resolveSynth
        dsimp only
        rw [if_pos (Or.inl h)]
        by_cases hf : fenced = true <;> by_cases hg : gen = st.generation <;>
          simp [hf, hg]
  · intro fenced st sess gen nextStart r h
    unfold resolvePrefetchWait
    have h1 : ¬ (¬ st.stopped = true ∧ (fenced = true → gen = st.generation) ∧
        r.isSome = true) := by
      simp [h]
    rw [if_neg h1]
    by_cases hf : fenced = true ∧ gen ≠ st.generation
    · simp [hf]
    · rw [if_neg hf, playFromIndex_stopped st h]
      exact ⟨rfl, rfl, rfl, rfl⟩

/-- C3 amended, witness: at the state reached by `speak` then `stop`, the
stopped flag is set, the generation is unchanged by the stop, and a late
synthesis resolution changes neither the live audio set nor the report
log. -/
theorem stop_invalidates_via_stopped_flag_witness :
    ((stopOp (speakBody true initState demoWords 0)).stopped = true ∧
      (stopOp (speakBody true initState demoWords 0)).generation
        = (speakBody true initState demoWords 0).generation ∧
      (stopOp (speakBody true initState demoWords 0)).audio = none ∧
      (stopOp (speakBody true initState demoWords 0)).speaking = false) ∧
    (speakBody true initState demoWords 0).generation = initState.generation + 1 ∧
    ((stopOp (speakBody true initState demoWords 0)).stopped = true ∧
      (resolveSynth true (stopOp (speakBody true initState demoWords 0)) 1 1
          (some ⟨0, 3, []⟩)).live
        = (stopOp (speakBody true initState demoWords 0)).live ∧
      (resolveSynth true (stopOp (speakBody true initState demoWords 0)) 1 1
          (some ⟨0, 3, []⟩)).reports
        = (stopOp (speakBody true initState demoWords 0)).reports) := by
  refine ⟨stop_invalidates_via_stopped_flag.1 _, stop_invalidates_via_stopped_flag.2.1 _ _ _, ?_⟩
  have h := (stop_invalidates_via_stopped_flag.1 (speakBody true initState demoWords 0)).1
  have h2 := stop_invalidates_via_stopped_flag.2.2.1 true
    (stopOp (speakBody true initState demoWords 0)) 1 1 (some ⟨0, 3, []⟩) h
  exact ⟨h, h2.1, h2.2.1⟩

/-- C10: `speak(words, fromIndex)` on a buffered adapter whose required
configuration is absent or incomplete is a complete no-op — the state is
returned unchanged (so the speaking flag stays false, no audio element is
created, and no `wordBoundary`/`ended` callback is ever emitted for the
call) — and the `ready` flag of each hook is true exactly when the
required config fields are present (Kokoro: a config with non-empty
`serverUrl`; Azure: non-empty `subscriptionKey` and `region`). -/
theorem speak_requires_config :
    (∀ (fenced : Bool) (cfg : Option KokoroConfig) (st : EngineState)
        (ws : List String) (i : Nat),
      kokoroReady cfg = false → speakOp fenced cfg st ws i = st) ∧
    (∀ (cfg : Option AzureConfig) (st : EngineState) (ws : List String) (i : Nat),
      azureReady cfg = false → speakOpAzure cfg st ws i = st) ∧
    kokoroReady none = false ∧
    (∀ c : KokoroConfig, kokoroReady (some c) = true ↔ c.serverUrl ≠ "") ∧
    azureReady none = false ∧
    (∀ c : AzureConfig,
      azureReady (some c) = true ↔ (c.subscriptionKey ≠ "" ∧ c.region ≠ "")) := by
  refine ⟨?_, ?_, rfl, ?_, rfl, ?_⟩
  · intro fenced cfg st ws i h
    simp [speakOp, h]
  · intro cfg st ws i h
    simp [speakOpAzure, h]
  · intro c
    simp [kokoroReady]
  · intro c
    simp [azureReady]

/-- C10 witness: a Kokoro config with empty `serverUrl` and an absent
Azure config are rejected, and `speak` leaves the initial state
untouched. -/
theorem speak_requires_config_witness :
    kokoroReady (some ⟨"", "af_heart"⟩) = false ∧
    speakOp false (some ⟨"", "af_heart"⟩) initState demoWords 0 = initState ∧
    azureReady (none : Option AzureConfig) = false ∧
    speakOpAzure none initState demoWords 0 = initState :=
  ⟨by decide,
   speak_requires_config.1 false (some ⟨"", "af_heart"⟩) initState demoWords 0 (by decide),
   rfl,
   speak_requires_config.2.1 none initState demoWords 0 rfl⟩

/-- Two hundred plain words with no sentence punctuation. -/
def longWords : List String := List.replicate 200 "lorem"

set_option maxRecDepth 8192 in
/-- C5 counterexample: the streaming (browser) provider does NOT use the
same chunking policy as the buffered providers.  On 200 punctuation-free
words from index 0, the browser chunker caps at `CHUNK_SIZE = 40` while
the buffered segmenter caps at `MAX_CHUNK_WORDS = 80`. -/
theorem browser_buffered_chunking_differ :
    browserChunkLength longWords 0 = 40 ∧
    getChunkLength longWords 0 = 80 ∧
    browserChunkLength longWords 0 ≠ getChunkLength longWords 0 := by
  decide

/-- C5 as amended: the browser provider has its own chunking policy (cap
`CHUNK_SIZE = 40`, a backward scan over the final 15 candidate positions)
distinct from the buffered segmenter's (`MIN = 15`, `MAX = 80`, forward
scan); the two policies agree whenever at most `MIN_CHUNK_WORDS` words
remain, in which case both take the entire remainder. -/
theorem chunkers_agree_on_short_remainder (words : List String) (f : Nat)
    (h : words.length - f ≤ MIN_CHUNK_WORDS) :
    browserChunkLength words f = getChunkLength words f ∧
    browserChunkLength words f = words.length - f := by
  have h40 : words.length - f ≤ CHUNK_SIZE := by
    unfold MIN_CHUNK_WORDS at h
    unfold CHUNK_SIZE
    omega
  unfold browserChunkLength getChunkLength
  simp [h, h40]

/-- C5 witness: on three remaining words both chunkers return 3. -/
theorem chunkers_agree_on_short_remainder_witness :
    demoWords.length - 0 ≤ MIN_CHUNK_WORDS ∧
    (browserChunkLength demoWords 0 = getChunkLength demoWords 0 ∧
      browserChunkLength demoWords 0 = demoWords.length - 0) :=
  ⟨by decide, chunkers_agree_on_short_remainder demoWords 0 (by decide)⟩

def facadeInit : FacadeState :=
  { activeProvider := .browser, lastWords := [], lastWordIndex := 0,
    speaking := false, pendingRestart := false, calls := [] }

/-- C6 counterexample: `updateProvider` (the switch-provider path of the
facade) while speaking issues a `stop` to the active adapter and selects
the new provider but never issues a `speak` — in particular no
resume-from-last-word call reaches the newly selected adapter, contrary
to the claim's switchProvider half.  Scenario: speak from 0, a boundary
reports word 3, then switch to the Kokoro provider. -/
theorem switch_provider_does_not_resume :
    (updateProvider (facadeBoundary (facadeSpeak facadeInit demoWords 0) 3) .kokoro).calls
      = [.speakCall .browser 0, .stopCall .browser] ∧
    (updateProvider (facadeBoundary (facadeSpeak facadeInit demoWords 0) 3) .kokoro).speaking
      = false ∧
    FacadeCall.speakCall .kokoro 3 ∉
      (updateProvider (facadeBoundary (facadeSpeak facadeInit demoWords 0) 3) .kokoro).calls := by
  decide

/-- C6 as amended: changing rate (stop, settle timer, re-speak) or voice
(stop, immediate re-speak) while speaking resumes playback exactly from
`lastWordIndexRef.current`, which tracks the last word index delivered
through the boundary callback — never from the session's original start
index; `updateProvider`, by contrast, only stops the active adapter and
issues no resume call at all. -/
theorem restart_resumes_from_last_reported :
    (∀ st : FacadeState, st.speaking = true → st.lastWords ≠ [] →
      (settleTimerFire (facadeSetRate st)).calls
        = st.calls ++ [.stopCall st.activeProvider,
                       .speakCall st.activeProvider st.lastWordIndex]) ∧
    (∀ st : FacadeState, st.speaking = true → st.lastWords ≠ [] →
      (voiceChangeRestart st).calls
        = st.calls ++ [.stopCall st.activeProvider,
                       .speakCall st.activeProvider st.lastWordIndex]) ∧
    (∀ (st : FacadeState) (w : Nat), (facadeBoundary st w).lastWordIndex = w) ∧
    (∀ (st : FacadeState) (newP : ProviderTag),
      (updateProvider st newP).calls
        = st.calls ++ (if st.speaking then [.stopCall st.activeProvider] else [])) := by
  refine ⟨?_, ?_, fun st w => rfl, ?_⟩
  · intro st h1 h2
    simp [facadeSetRate, restartIfSpeaking, settleTimerFire, h1, h2]
  · intro st h1 h2
    simp [voiceChangeRestart, h1, h2]
  · intro st newP
    by_cases hsp : st.speaking = true <;> simp [updateProvider, hsp]

/-- C6 witness: a facade speaking `demoWords` whose last reported word is
7 resumes from 7 (not 0) after a rate change and its settle timer. -/
theorem restart_resumes_from_last_reported_witness :
    (FacadeState.speaking ⟨.azure, demoWords, 7, true, false, []⟩ = true) ∧
    (settleTimerFire (facadeSetRate ⟨.azure, demoWords, 7, true, false, []⟩)).calls
      = [] ++ [.stopCall .azure, .speakCall .azure 7] :=
  ⟨rfl, restart_resumes_from_last_reported.1 ⟨.azure, demoWords, 7, true, false, []⟩
    rfl (by decide)⟩

/-- The timing table of the worked example in the spec. -/
def demoTimings : List WordTiming := [⟨5, 0⟩, ⟨6, 400⟩, ⟨7, 900⟩]

/-- C7: the position tracker reports the word of the LAST timing entry
whose `audioOffsetMs` is at most the polled clock (the backward scan of
`syncLoop` equals taking the last element of the filtered table); on
timings `[(5,0),(6,400),(7,900)]` with clock 650 the matched entry is
`(6,400)` — word 6, not 5 or 7 — and a boundary is emitted exactly when 6
differs from `lastReportedRef`; in general a boundary is emitted only
when the matched word index differs from `lastReportedRef`. -/
theorem tracker_reports_last_entry_at_or_before_clock :
    (∀ (timings : List WordTiming) (clock : Nat),
      findMatch timings clock
        = (timings.filter (fun t => t.audioOffsetMs ≤ clock)).getLast?) ∧
    findMatch demoTimings 650 = some ⟨6, 400⟩ ∧
    (∀ lastReported : Int,
      (syncStep demoTimings 650 lastReported).2
        = if (6 : Int) ≠ lastReported then some 6 else none) ∧
    (∀ (timings : List WordTiming) (clock : Nat) (lastReported : Int) (w : Nat),
      (syncStep timings clock lastReported).2 = some w →
        (w : Int) ≠ lastReported) := by
  refine ⟨findMatch_eq_filter_getLast, by decide, ?_, ?_⟩
  · intro last
    unfold syncStep
    rw [show findMatch demoTimings 650 = some ⟨6, 400⟩ from by decide]
    dsimp only
    simp only [Nat.cast_ofNat]
    by_cases he : (6 : Int) ≠ last
    · rw [if_pos he, if_pos he]
    · rw [if_neg he, if_neg he]
  · intro ts clock last w hsome
    unfold syncStep at hsome
    cases hf : findMatch ts clock with
    | none => rw [hf] at hsome; simp at hsome
    | some t =>
        rw [hf] at hsome
        dsimp only at hsome
        by_cases he : (t.wordIndex : Int) ≠ last
        · rw [if_pos he] at hsome
          have : t.wordIndex = w := by simpa using hsome
          omega
        · rw [if_neg he] at hsome
          simp at hsome

/-- C7 witness: at clock 650 with `lastReportedRef = -1`, word 6 is
emitted and indeed differs from -1. -/
theorem tracker_reports_witness :
    (syncStep demoTimings 650 (-1)).2 = some 6 ∧ ((6 : Nat) : Int) ≠ (-1 : Int) :=
  ⟨by decide,
   tracker_reports_last_entry_at_or_before_clock.2.2.2 demoTimings 650 (-1) 6 (by decide)⟩

/-- C8: every failure path of a buffered adapter's `synthesizeChunk`
evaluates to `null` — Kokoro: a thrown transport/decoding error, a
non-success HTTP status, or a missing/empty `audio` field; Azure: the
error callback, a reason other than `SynthesizingAudioCompleted`, or
empty `audioData` — and since the model functions are total into
`Option ChunkResult`, the caller only ever observes a `ChunkResult` or
`null`; no exception escapes the adapter boundary. -/
theorem synthesize_null_on_failure :
    (∀ cfg words si, synthesizeChunkK cfg words si .failure = none) ∧
    (∀ cfg words si audio ts,
      synthesizeChunkK cfg words si (.response false audio ts) = none) ∧
    (∀ cfg words si ok ts,
      synthesizeChunkK cfg words si (.response ok none ts) = none) ∧
    (∀ cfg words si ok ts,
      synthesizeChunkK cfg words si (.response ok (some "") ts) = none) ∧
    (∀ cfg words si pl offs,
      synthesizeChunkA cfg words si pl offs .errorCallback = none) ∧
    (∀ cfg words si pl offs n evs,
      synthesizeChunkA cfg words si pl offs (.result false n evs) = none) ∧
    (∀ cfg words si pl offs b evs,
      synthesizeChunkA cfg words si pl offs (.result b 0 evs) = none) := by
  refine ⟨?_, ?_, ?_, ?_, ?_, ?_, ?_⟩
  · intro cfg words si
    unfold synthesizeChunkK
    dsimp only
    repeat' first | rfl | split
  · intro cfg words si audio ts
    unfold synthesizeChunkK
    dsimp only
    repeat' first | rfl | split
  · intro cfg words si ok ts
    unfold synthesizeChunkK
    dsimp only
    repeat' first | rfl | split
  · intro cfg words si ok ts
    unfold synthesizeChunkK
    dsimp only
    repeat' first | rfl | split
  · intro cfg words si pl offs
    unfold synthesizeChunkA
    dsimp only
    repeat' first | rfl | split
  · intro cfg words si pl offs n evs
    unfold synthesizeChunkA
    dsimp only
    repeat' first | rfl | split
  · intro cfg words si pl offs b evs
    unfold synthesizeChunkA
    dsimp only
    (repeat' first | rfl | split) <;> omega

/-! ### C9: monotonicity of the timing tables -/

/-- C9 counterexample: the Kokoro adapter copies the server's `start`
timestamps verbatim, so for the (malformed) server response with
timestamps `[5, 1]` the produced table has offsets `[5000, 1000]` — NOT
non-decreasing.  The claim's quantification over "every sequence of
server timestamps received" therefore fails on the code. -/
theorem kokoro_offsets_can_decrease :
    (kokoroTimings 0 2 [5, 1]).map WordTiming.audioOffsetMs = [5000, 1000] ∧
    ¬ List.Chain' (· ≤ ·) ((kokoroTimings 0 2 [5, 1]).map WordTiming.audioOffsetMs) := by
  have h : (kokoroTimings 0 2 [5, 1]).map WordTiming.audioOffsetMs = [5000, 1000] := by
    decide
  refine ⟨h, ?_⟩
  rw [h]
  intro hc
  have h2 := (List.chain'_cons.mp hc).1
  omega

theorem kokoro_wordIndex_strict (si cl : Nat) (ts : List Nat) :
    List.Chain' (· < ·) ((kokoroTimings si cl ts).map WordTiming.wordIndex) := by
  unfold kokoroTimings
  rw [List.map_map]
  apply List.Pairwise.chain'
  rw [List.pairwise_iff_getElem]
  intro i j hi hj hij
  simp only [List.getElem_map, List.getElem_range, Function.comp]
  omega

theorem kokoro_offsets_mono (si cl : Nat) (ts : List Nat)
    (hts : ts.Pairwise (· ≤ ·)) :
    List.Chain' (· ≤ ·) ((kokoroTimings si cl ts).map WordTiming.audioOffsetMs) := by
  unfold kokoroTimings
  rw [List.map_map]
  apply List.Pairwise.chain'
  rw [List.pairwise_iff_getElem]
  intro i j hi hj hij
  simp only [List.length_map, List.length_range] at hi hj
  simp only [List.getElem_map, List.getElem_range, Function.comp]
  have h1 : ts.getD i 0 ≤ ts.getD j 0 := by
    rw [List.getD_eq_getElem ts 0 (by omega), List.getD_eq_getElem ts 0 (by omega)]
    exact List.pairwise_iff_getElem.mp hts i j (by omega) (by omega) hij
  exact Nat.mul_le_mul_right 1000 h1

theorem locGo_le (offsets : List Nat) (x : Nat) : ∀ n, locGo offsets x n ≤ n := by
  intro n
  induction n with
  | zero => simp [locGo]
  | succ m ih =>
      unfold locGo
      split
      · omega
      · omega

theorem locGo_mono (offsets : List Nat) (x y : Nat) (hxy : x ≤ y) :
    ∀ n, locGo offsets x n ≤ locGo offsets y n := by
  intro n
  induction n with
  | zero => simp [locGo]
  | succ m ih =>
      unfold locGo
      by_cases h1 : offsets.getD m 0 ≤ x
      · rw [if_pos h1, if_pos (le_trans h1 hxy)]
      · rw [if_neg h1]
        by_cases h2 : offsets.getD m 0 ≤ y
        · rw [if_pos h2]
          exact locGo_le offsets x m
        · rw [if_neg h2]
          exact ih

theorem locateWord_mono (offsets : List Nat) (x y : Nat) (hxy : x ≤ y) :
    locateWord offsets x ≤ locateWord offsets y :=
  locGo_mono offsets x y hxy offsets.length

/-- Invariant carried through the Azure `wordBoundary` fold: the table is
strictly increasing in `wordIndex` and non-decreasing in `audioOffsetMs`,
and its last entry corresponds to `lastRecordedWord`. -/
def azureOK (si : Nat) (st : Int × List WordTiming) : Prop :=
  List.Chain' (· < ·) (st.2.map WordTiming.wordIndex) ∧
  List.Chain' (· ≤ ·) (st.2.map WordTiming.audioOffsetMs) ∧
  ∀ t, st.2.getLast? = some t →
    (t.wordIndex : Int) = (si : Int) + st.1 ∧ 0 ≤ st.1

/-- Compatibility of the fold state with a not-yet-processed event: the
event cannot move the located word backwards nor the audio offset down. -/
def azureCompat (pl : Nat) (offsets : List Nat) (st : Int × List WordTiming)
    (e : BoundaryEvent) : Prop :=
  pl ≤ e.textOffset →
    st.1 ≤ (locateWord offsets (e.textOffset - pl) : Int) ∧
    ∀ t ∈ st.2, t.audioOffsetMs ≤ e.audioOffset / 10000

theorem azureFold_ok (si pl : Nat) (offsets : List Nat) :
    ∀ (evs : List BoundaryEvent) (st : Int × List WordTiming),
      evs.Pairwise (fun a b => a.textOffset ≤ b.textOffset ∧
        a.audioOffset ≤ b.audioOffset) →
      azureOK si st →
      (∀ e ∈ evs, azureCompat pl offsets st e) →
      azureOK si (evs.foldl (azureStep si pl offsets) st) := by
  intro evs
  induction evs with
  | nil =>
      intro st _ hok _
      simpa using hok
  | cons e rest ih =>
      intro st hpw hok hcompat
      rw [List.foldl_cons]
      obtain ⟨hhead, hrest⟩ := List.pairwise_cons.mp hpw
      by_cases he : e.textOffset < pl
      · have hstep : azureStep si pl offsets st e = st := by
          unfold azureStep
          rw [if_pos he]
        rw [hstep]
        exact ih st hrest hok (fun x hx => hcompat x (List.mem_cons_of_mem _ hx))
      · have hce := hcompat e (List.mem_cons_self _ _) (Nat.le_of_not_lt he)
        by_cases hw : (locateWord offsets (e.textOffset - pl) : Int) ≠ st.1
        · have hstep : azureStep si pl offsets st e =
              (((locateWord offsets (e.textOffset - pl) : Nat) : Int),
               st.2 ++ [⟨si + locateWord offsets (e.textOffset - pl),
                         e.audioOffset / 10000⟩]) := by
            unfold azureStep
            rw [if_neg he]
            dsimp only
            rw [if_pos hw]
          rw [hstep]
          have hlt : st.1 < (locateWord offsets (e.textOffset - pl) : Int) :=
            lt_of_le_of_ne hce.1 (fun hEq => hw hEq.symm)
          have hok2 : azureOK si
              (((locateWord offsets (e.textOffset - pl) : Nat) : Int),
               st.2 ++ [⟨si + locateWord offsets (e.textOffset - pl),
                         e.audioOffset / 10000⟩]) := by
            obtain ⟨hchainW, hchainO, hlast⟩ := hok
            refine ⟨?_, ?_, ?_⟩
            · rw [List.map_append]
              rw [List.chain'_append]
              refine ⟨hchainW, List.chain'_singleton _, ?_⟩
              intro a ha b hb
              rw [List.getLast?_map] at ha
              simp only [List.map_cons, List.map_nil, List.head?_cons,
                Option.mem_def, Option.some.injEq] at hb
              subst hb
              cases hl : st.2.getLast? with
              | none => rw [hl] at ha; simp at ha
              | some t =>
                  rw [hl] at ha
                  have haa : t.wordIndex = a := by simpa using ha
                  have h1 := (hlast t hl).1
                  have h2 := (hlast t hl).2
                  omega
            · rw [List.map_append]
              rw [List.chain'_append]
              refine ⟨hchainO, List.chain'_singleton _, ?_⟩
              intro a ha b hb
              rw [List.getLast?_map] at ha
              simp only [List.map_cons, List.map_nil, List.head?_cons,
                Option.mem_def, Option.some.injEq] at hb
              subst hb
              cases hl : st.2.getLast? with
              | none => rw [hl] at ha; simp at ha
              | some t =>
                  rw [hl] at ha
                  have haa : t.audioOffsetMs = a := by simpa using ha
                  have hmem : t ∈ st.2 := by
                    obtain ⟨hne, heq⟩ :=
                      List.mem_getLast?_eq_getLast (Option.mem_def.mpr hl)
                    rw [heq]
                    exact List.getLast_mem hne
                  have h1 := hce.2 t hmem
                  omega
            · intro t ht
              rw [List.getLast?_concat] at ht
              cases ht
              constructor
              · push_cast
                ring
              · positivity
          apply ih _ hrest hok2
          intro x hx
          intro hple
          have hxx := hhead x hx
          constructor
          · have hmono := locateWord_mono offsets (e.textOffset - pl)
              (x.textOffset - pl) (Nat.sub_le_sub_right hxx.1 pl)
            have hmono2 : ((locateWord offsets (e.textOffset - pl) : Nat) : Int) ≤
                ((locateWord offsets (x.textOffset - pl) : Nat) : Int) := by
              exact_mod_cast hmono
            exact hmono2
          · intro t ht
            rcases List.mem_append.mp ht with h1 | h1
            · exact (hcompat x (List.mem_cons_of_mem _ hx) hple).2 t h1
            · simp only [List.mem_singleton] at h1
              subst h1
              exact Nat.div_le_div_right hxx.2
        · have hstep : azureStep si pl offsets st e = st := by
            unfold azureStep
            rw [if_neg he]
            dsimp only
            rw [if_neg hw]
          rw [hstep]
          exact ih st hrest hok (fun x hx => hcompat x (List.mem_cons_of_mem _ hx))

/-- C9 as amended: within one chunk's timing table, `wordIndex` values are
strictly increasing and `audioOffsetMs` values are non-decreasing PROVIDED
the backend delivers well-ordered signals — Azure: boundary events with
non-decreasing text offsets and non-decreasing audio offsets; Kokoro:
server timestamps with non-decreasing `start` values.  The Kokoro
`wordIndex` column is strictly increasing unconditionally.  (For
adversarial out-of-order backend data the property fails; see the
counterexample.) -/
theorem timing_tables_monotone :
    (∀ (si cl : Nat) (ts : List Nat),
      List.Chain' (· < ·) ((kokoroTimings si cl ts).map WordTiming.wordIndex)) ∧
    (∀ (si cl : Nat) (ts : List Nat), ts.Pairwise (· ≤ ·) →
      List.Chain' (· ≤ ·) ((kokoroTimings si cl ts).map WordTiming.audioOffsetMs)) ∧
    (∀ (si pl : Nat) (offsets : List Nat) (events : List BoundaryEvent),
      events.Pairwise (fun a b => a.textOffset ≤ b.textOffset ∧
        a.audioOffset ≤ b.audioOffset) →
      List.Chain' (· < ·)
        ((azureTimings si pl offsets events).map WordTiming.wordIndex) ∧
      List.Chain' (· ≤ ·)
        ((azureTimings si pl offsets events).map WordTiming.audioOffsetMs)) := by
  refine ⟨kokoro_wordIndex_strict, kokoro_offsets_mono, ?_⟩
  intro si pl offsets events hpw
  have hinit : azureOK si ((-1 : Int), ([] : List WordTiming)) := by
    refine ⟨List.chain'_nil, List.chain'_nil, ?_⟩
    intro t ht
    simp at ht
  have hcompat : ∀ e ∈ events, azureCompat pl offsets ((-1 : Int), ([] : List WordTiming)) e := by
    intro e _ _
    constructor
    · have : (0 : Int) ≤ (locateWord offsets (e.textOffset - pl) : Int) := by
        positivity
      omega
    · intro t ht
      simp at ht
  have := azureFold_ok si pl offsets events ((-1 : Int), []) hpw hinit hcompat
  exact ⟨this.1, this.2.1⟩

/-- C9 amended, witness: for the in-order Kokoro server response `[1, 5]`
the offsets are non-decreasing, and for in-order Azure events the same
holds. -/
theorem timing_tables_monotone_witness :
    ([1, 5] : List Nat).Pairwise (· ≤ ·) ∧
    List.Chain' (· ≤ ·) ((kokoroTimings 0 2 [1, 5]).map WordTiming.audioOffsetMs) ∧
    ([⟨10, 0⟩, ⟨14, 70000⟩] : List BoundaryEvent).Pairwise
      (fun a b => a.textOffset ≤ b.textOffset ∧ a.audioOffset ≤ b.audioOffset) ∧
    List.Chain' (· < ·)
      ((azureTimings 2 10 [0, 4, 9] [⟨10, 0⟩, ⟨14, 70000⟩]).map WordTiming.wordIndex) :=
  ⟨by decide,
   timing_tables_monotone.2.1 0 2 [1, 5] (by decide),
   by decide,
   (timing_tables_monotone.2.2 2 10 [0, 4, 9] [⟨10, 0⟩, ⟨14, 70000⟩] (by decide)).1⟩

end Speeder
